import Mathlib

/-!
Shallow embedding of the hx-hawks scanner (github.com/nxneeraj/hx-hawks) for
specification checking.

Conventions of the embedding:
* Go maps become association lists with Go map semantics (insert overwrites,
  delete removes, lookup returns an option).
* Wall-clock times (`time.Now()`, durations) are environment inputs, modelled
  as abstract `Nat` instants passed in by the caller; the float-valued
  `RequestDuration` field is dropped because no verified property mentions it.
* `uuid.New()` is an environment input as well: the fresh job identifier is a
  parameter of `CreateJob`.
* Go `error` values become `Option String` (the message); `nil` is `none`.
* Go `int` counters become `Int`, status codes become `Nat`, byte slices
  become `String`.
-/

/-- ScanResult mirrors `types.ScanResult` (pkg/types): the outcome of scanning a
single URL.  `RequestDuration` (wall-clock float) is omitted. -/
structure ScanResult where
  URL : String
  IsVulnerable : Bool
  MatchedKeywords : List String
  ResponseBody : String
  StatusCode : Nat
  IP : String
  Timestamp : Nat
  Error : String
  deriving Repr, DecidableEq

/-- JobStatus mirrors `types.JobStatus` (pkg/types): the state of an
API-triggered scan job. -/
structure JobStatus where
  JobID : String
  Status : String
  TotalURLs : Int
  ProcessedURLs : Int
  VulnerableURLs : Int
  StartTime : Nat
  EndTime : Option Nat
  Error : String
  Results : List ScanResult
  deriving Repr, DecidableEq

/-- Manager state: the `jobs map[string]*types.JobStatus` of `ScanManager`
(pkg/api/manager.go), as an association list with Go map semantics. -/
abbrev Manager := List (String × JobStatus)

/-- Go map read `m.jobs[jobID]` with its `exists` flag collapsed into `Option`. -/
def lookupJob : Manager → String → Option JobStatus
  | [], _ => none
  | (k, j) :: rest, id => if k = id then some j else lookupJob rest id

/-- Removal of a key, used to keep keys unique under insertion (Go map
semantics) and to model `delete(m.jobs, jobID)`. -/
def eraseJob : Manager → String → Manager
  | [], _ => []
  | (k, j) :: rest, id => if k = id then eraseJob rest id else (k, j) :: eraseJob rest id

/-- Go map write `m.jobs[jobID] = job`: overwrite if present, insert otherwise. -/
def insertJob (m : Manager) (id : String) (j : JobStatus) : Manager :=
  (id, j) :: eraseJob m id

/-- CreateJob (pkg/api/manager.go): inserts a fresh job in state `"Pending"`
with zeroed counters; `jobID` (the uuid) and `now` are environment inputs. -/
def CreateJob (m : Manager) (jobID : String) (totalURLs : Int) (now : Nat) : Manager :=
  insertJob m jobID
    { JobID := jobID
      Status := "Pending"
      TotalURLs := totalURLs
      ProcessedURLs := 0
      VulnerableURLs := 0
      StartTime := now
      EndTime := none
      Error := ""
      Results := [] }

/-- UpdateJobStatus (pkg/api/manager.go): sets `job.Status = status`; if the
error argument is non-nil stores its text; if the status argument is
`"Completed"` or `"Error"` stamps `EndTime = now`.  Returns the new map and
the returned Go error (`none` on success, `some "job not found"` otherwise). -/
def UpdateJobStatus (m : Manager) (jobID status : String) (err : Option String)
    (now : Nat) : Manager × Option String :=
  match lookupJob m jobID with
  | none => (m, some "job not found")
  | some job =>
    let job1 := { job with Status := status }
    let job2 :=
      match err with
      | some e => { job1 with Error := e }
      | none => job1
    let job3 :=
      if status = "Completed" ∨ status = "Error" then
        { job2 with EndTime := some now }
      else job2
    (insertJob m jobID job3, none)

/-- AddResult (pkg/api/manager.go): while the job is `"Running"` or
`"Pending"`, appends the result, increments `ProcessedURLs` (and
`VulnerableURLs` when the result is vulnerable) and promotes `"Pending"` to
`"Running"`; otherwise the map is left untouched.  Both the mutating branch
and the no-op branch return `nil` (`none`). -/
def AddResult (m : Manager) (jobID : String) (r : ScanResult) : Manager × Option String :=
  match lookupJob m jobID with
  | none => (m, some "job not found")
  | some job =>
    if job.Status = "Running" ∨ job.Status = "Pending" then
      let job1 := { job with
        Results := job.Results ++ [r]
        ProcessedURLs := job.ProcessedURLs + 1
        VulnerableURLs :=
          if r.IsVulnerable then job.VulnerableURLs + 1 else job.VulnerableURLs }
      let job2 := if job1.Status = "Pending" then { job1 with Status := "Running" } else job1
      (insertJob m jobID job2, none)
    else
      (m, none)

/-- GetJobStatus (pkg/api/manager.go): a copy of the scalar fields without the
results slice (the copy leaves `Results` at its zero value). -/
def GetJobStatus (m : Manager) (jobID : String) : Option JobStatus :=
  (lookupJob m jobID).map fun job => { job with Results := [] }

/-- GetJobResults (pkg/api/manager.go): the job's result list. -/
def GetJobResults (m : Manager) (jobID : String) : Option (List ScanResult) :=
  (lookupJob m jobID).map fun job => job.Results

/-- DeleteJob (pkg/api/manager.go): `delete(m.jobs, jobID)`. -/
def DeleteJob (m : Manager) (jobID : String) : Manager :=
  eraseJob m jobID

/-- RegOp: one call on the registry, for reasoning about operation sequences.
Read-only calls are included for completeness; they do not change the map. -/
inductive RegOp where
  | create (jobID : String) (totalURLs : Int) (now : Nat)
  | update (jobID status : String) (err : Option String) (now : Nat)
  | add (jobID : String) (r : ScanResult)
  | queryStatus (jobID : String)
  | queryResults (jobID : String)
  | del (jobID : String)
  deriving Repr

/-- State reached by one registry call. -/
def applyOp (m : Manager) : RegOp → Manager
  | .create id t now => CreateJob m id t now
  | .update id st err now => (UpdateJobStatus m id st err now).1
  | .add id r => (AddResult m id r).1
  | .queryStatus _ => m
  | .queryResults _ => m
  | .del id => DeleteJob m id

/-- State reached by a sequence of registry calls. -/
def applyOps (m : Manager) (ops : List RegOp) : Manager :=
  ops.foldl applyOp m

-- Sample data used by concrete counterexamples and witnesses.

/-- Vulnerable sample result (a worker output shape). -/
def sampleRes : ScanResult :=
  { URL := "http://a.example"
    IsVulnerable := true
    MatchedKeywords := ["admin"]
    ResponseBody := "Welcome admin"
    StatusCode := 200
    IP := ""
    Timestamp := 0
    Error := "" }

/-- Manager holding one freshly created job `"job1"` (status `"Pending"`). -/
def mgr0 : Manager := CreateJob [] "job1" 3 0

/-- mgr0 after the job was marked `"Completed"` at time 1 (terminal job). -/
def mgrDone : Manager := (UpdateJobStatus mgr0 "job1" "Completed" none 1).1

/-- Record held by mgrDone under `"job1"`. -/
def jobDone : JobStatus :=
  { JobID := "job1"
    Status := "Completed"
    TotalURLs := 3
    ProcessedURLs := 0
    VulnerableURLs := 0
    StartTime := 0
    EndTime := some 1
    Error := ""
    Results := [] }

-- Counter invariant machinery for registry operation sequences.

/-- Counter part of the ScanJob invariant that the registry does maintain. -/
def CountersOK (m : Manager) : Prop :=
  ∀ id j, lookupJob m id = some j →
    0 ≤ j.VulnerableURLs ∧ j.VulnerableURLs ≤ j.ProcessedURLs

-- Matcher: the keyword loop of scanner.Worker (pkg/scanner/worker.go, lines
-- 59-93), and the HTTP client (pkg/httpclient, modelled below).

/-- Go `strings.Contains(body, kw)` — case-sensitive substring containment.
The embedding tests infix on the character lists (Go tests bytes; the
difference is immaterial for the verified properties). -/
def strContains (body kw : String) : Bool :=
  decide (kw.data <:+: body.data)

/-- Keyword loop of scanner.Worker: for each keyword in order, if it occurs in
the body and was not already recorded, append it; any hit sets the vulnerable
flag.  `matched`/`isVuln` are the loop accumulators. -/
def matchLoop (body : String) : List String → List String → Bool → Bool × List String
  | [], matched, isVuln => (isVuln, matched)
  | k :: ks, matched, isVuln =>
    if strContains body k then
      matchLoop body ks (if k ∈ matched then matched else matched ++ [k]) true
    else
      matchLoop body ks matched isVuln

/-- Matcher contract `match(body, keywords) → (isVulnerable, matchedKeywords)`
as implemented by the worker's loop, starting from empty accumulators. -/
def matchKeywords (body : String) (keywords : List String) : Bool × List String :=
  matchLoop body keywords [] false

-- HTTP client (pkg/httpclient): NewClient's CheckRedirect policy and Fetch.

/-- WebResponse: the environment's behaviour at one URL.  `fail` is a
transport-level failure of `client.Do` (DNS/connect/TLS/timeout); `resp`
carries the status code, the optional redirect target (Location), the body
that `io.ReadAll` would yield, and `readErr`, the error `io.ReadAll` returns
instead of the body when reading fails mid-stream. -/
inductive WebResponse where
  | fail (msg : String)
  | resp (status : Nat) (location : Option String) (body : String)
      (readErr : Option String)

/-- CheckRedirect policy installed by NewClient: once ten requests have been
made (`len(via) >= 10`) the client stops and uses the last response. -/
def checkRedirect (viaLen : Nat) : Bool :=
  decide (10 ≤ viaLen)

/-- Redirect-following loop of `client.Do`: `viaLen` counts the requests
already made (Go's `via`), `fuel` is a structural-termination bound only —
`Fetch` passes 11, and the `checkRedirect` guard stops the loop after at most
10 requests, so the fuel-0 branch is unreachable from `Fetch`.  On success it
yields the URL of the request that produced the final response, its status,
its body and its body-read error. -/
def clientDo (web : String → WebResponse) :
    Nat → Nat → String → Except String (String × Nat × String × Option String)
  | 0, _, _ => .error "redirect fuel exhausted"
  | fuel + 1, viaLen, url =>
    match web url with
    | .fail msg => .error msg
    | .resp status location body readErr =>
      match location with
      | none => .ok (url, status, body, readErr)
      | some next =>
        if checkRedirect (viaLen + 1) then .ok (url, status, body, readErr)
        else clientDo web fuel (viaLen + 1) next

/-- Fetch (pkg/httpclient, part of CustomClient): returns
`(finalURL, statusCode, body, error)`.  A transport failure yields the
original URL, status 0, no body and the error; a body-read failure yields the
final URL, the status code obtained, no body and the error (the
partial-success case); otherwise the final URL, status, body and nil error.
The wall-clock duration returned by the Go code is omitted. -/
def Fetch (web : String → WebResponse) (urlStr : String) :
    String × Nat × Option String × Option String :=
  match clientDo web 11 0 urlStr with
  | .error e => (urlStr, 0, none, some e)
  | .ok (finalURL, status, body, readErr) =>
    match readErr with
    | some e => (finalURL, status, none, some e)
    | none => (finalURL, status, some body, none)

/-- Result construction of scanner.Worker (pkg/scanner/worker.go, lines
42-93) for one URL: fetch, then on success run the keyword match and attach
the body; on error store the error text and leave the zero values in place.
`now` (the timestamp) and `ip` (the best-effort DNS resolution of
utils.GetIP) are environment inputs. -/
def workerProcess (web : String → WebResponse) (keywords : List String)
    (urlStr : String) (now : Nat) (ip : String) : ScanResult :=
  let f := Fetch web urlStr
  let base : ScanResult :=
    { URL := f.1
      IsVulnerable := false
      MatchedKeywords := []
      ResponseBody := ""
      StatusCode := f.2.1
      IP := ip
      Timestamp := now
      Error := "" }
  match f.2.2.2 with
  | some e => { base with Error := e }
  | none =>
    let bodyString := (f.2.2.1).getD ""
    let m := matchKeywords bodyString keywords
    { base with
      IsVulnerable := m.1
      MatchedKeywords := m.2
      ResponseBody := bodyString }

/-- Environment where every URL answers 200 with a redirect-free body whose
read fails mid-stream: the partial-success case of Fetch. -/
def webReadFail : String → WebResponse :=
  fun _ => .resp 200 none "partial" (some "unexpected EOF")

/-- Environment where every URL redirects to itself: an unbounded redirect
chain. -/
def webLoop : String → WebResponse :=
  fun _ => .resp 301 (some "http://loop.example") "moved" none

/-- Environment with a single plain successful page. -/
def webOk : String → WebResponse :=
  fun _ => .resp 200 none "hello world" none

-- Scan pipeline (pkg/scanner/scanner.go Scanner.Run + worker.go Worker):
-- an interleaving small-step model.  Channels are FIFO buffers of capacity
-- Threads (= n); the context is a monotone cancel flag; fetch + match is
-- collapsed into the receive step (it touches no shared pipeline state), and
-- a result is identified by the URL it came from, which is all the counting
-- properties need.

/-- Control state of one worker goroutine (worker.go): waiting on the url
channel, holding a computed result it is trying to send, sitting in the
configured inter-request delay, or returned. -/
inductive WStatus where
  | idle
  | sending (r : String)
  | delaying
  | stopped
  deriving Repr, DecidableEq

/-- Control state of the collector goroutine (scanner.go, collectLoop). -/
inductive CStatus where
  | running
  | stopped
  deriving Repr, DecidableEq

/-- Global state of one Scanner.Run execution. -/
structure PState where
  pending : List String
  urlClosed : Bool
  urlBuf : List String
  resClosed : Bool
  resBuf : List String
  workers : List WStatus
  collector : CStatus
  collected : List String
  dropped : Nat
  cancelled : Bool
  deriving Repr, DecidableEq

/-- State at the start of Scanner.Run over `urls` with n worker goroutines. -/
def initState (urls : List String) (n : Nat) : PState :=
  { pending := urls
    urlClosed := false
    urlBuf := []
    resClosed := false
    resBuf := []
    workers := List.replicate n .idle
    collector := .running
    collected := []
    dropped := 0
    cancelled := false }

/-- One interleaving step of the pipeline with worker count (and channel
capacity) n.  Each constructor is one select arm or one statement of
Scanner.Run / Worker:
* feed / feedClose / feedAbort — the feeder goroutine's send loop, its normal
  close after the last URL, and its early close when the context is done;
* wRecv — a worker receives a URL (fetch + match collapsed in, producing the
  result it will try to send); wStopClosed — a worker sees the closed, drained
  url channel and returns; wStopCtx — the worker's top-level ctx.Done arm;
* wSend — delivery into the result channel (never performed on a closed
  channel: the main goroutine closes it only after all workers stopped);
  wDrop — the documented drop: the ctx.Done arm of the delivery select
  abandons the computed result; wDelayDone / wDelayCancel — the delay select;
* cRecv — the collector appends a received result to s.Results;
  cStopClosed — the collector sees the closed, drained result channel;
  cStopCtx — the collector's own ctx.Done arm (it stops listening even though
  buffered results may remain);
* mainClose — close(resultChan) after wg.Wait();
* cancel — the scan-duration timeout or any other context cancellation. -/
inductive Step (n : Nat) : PState → PState → Prop where
  | feed (s : PState) (u : String) (rest : List String) :
      s.pending = u :: rest → s.urlClosed = false → s.urlBuf.length < n →
      Step n s { s with pending := rest, urlBuf := s.urlBuf ++ [u] }
  | feedClose (s : PState) :
      s.pending = [] → s.urlClosed = false →
      Step n s { s with urlClosed := true }
  | feedAbort (s : PState) :
      s.cancelled = true → s.urlClosed = false →
      Step n s { s with pending := [], urlClosed := true }
  | wRecv (s : PState) (i : Nat) (u : String) (rest : List String) :
      s.workers.get? i = some .idle → s.urlBuf = u :: rest →
      Step n s { s with urlBuf := rest, workers := s.workers.set i (.sending u) }
  | wStopClosed (s : PState) (i : Nat) :
      s.workers.get? i = some .idle → s.urlClosed = true → s.urlBuf = [] →
      Step n s { s with workers := s.workers.set i .stopped }
  | wStopCtx (s : PState) (i : Nat) :
      s.workers.get? i = some .idle → s.cancelled = true →
      Step n s { s with workers := s.workers.set i .stopped }
  | wSend (s : PState) (i : Nat) (r : String) :
      s.workers.get? i = some (.sending r) → s.resBuf.length < n →
      s.resClosed = false →
      Step n s { s with resBuf := s.resBuf ++ [r], workers := s.workers.set i .delaying }
  | wDrop (s : PState) (i : Nat) (r : String) :
      s.workers.get? i = some (.sending r) → s.cancelled = true →
      Step n s { s with workers := s.workers.set i .stopped, dropped := s.dropped + 1 }
  | wDelayDone (s : PState) (i : Nat) :
      s.workers.get? i = some .delaying →
      Step n s { s with workers := s.workers.set i .idle }
  | wDelayCancel (s : PState) (i : Nat) :
      s.workers.get? i = some .delaying → s.cancelled = true →
      Step n s { s with workers := s.workers.set i .stopped }
  | cRecv (s : PState) (r : String) (rest : List String) :
      s.collector = .running → s.resBuf = r :: rest →
      Step n s { s with resBuf := rest, collected := s.collected ++ [r] }
  | cStopClosed (s : PState) :
      s.collector = .running → s.resClosed = true → s.resBuf = [] →
      Step n s { s with collector := .stopped }
  | cStopCtx (s : PState) :
      s.collector = .running → s.cancelled = true →
      Step n s { s with collector := .stopped }
  | mainClose (s : PState) :
      (∀ w ∈ s.workers, w = .stopped) → s.resClosed = false →
      Step n s { s with resClosed := true }
  | cancel (s : PState) :
      Step n s { s with cancelled := true }

/-- Scanner.Run has returned: the result channel was closed (which the main
goroutine does only after wg.Wait()) and the collector goroutine exited. -/
def FinalState (s : PState) : Prop :=
  s.collector = .stopped ∧ s.resClosed = true

/-- Number of results held by workers that are mid-delivery. -/
def carried : WStatus → Nat
  | .sending _ => 1
  | _ => 0

/-- Total of results held mid-delivery over the worker pool. -/
def inFlight (ws : List WStatus) : Nat :=
  (ws.map carried).sum

/-- Conserved quantity of the pipeline: every target is in exactly one place —
not yet fed, buffered in the url channel, held by a worker, buffered in the
result channel, collected, or dropped. -/
def tally (s : PState) : Nat :=
  s.pending.length + s.urlBuf.length + inFlight s.workers + s.resBuf.length +
    s.collected.length + s.dropped

/-- Invariant of a run in which cancellation has not occurred: exact
conservation of targets, no drops, and the structural facts behind the
shutdown ordering of Scanner.Run (a closed url channel means fully fed, a
stopped worker means the url channel was closed and drained, a closed result
channel means all workers stopped, a stopped collector means the closed result
channel was drained). -/
structure CleanInv (M : Nat) (s : PState) : Prop where
  tally_eq : tally s = M
  dropped_eq : s.dropped = 0
  closed_pending : s.urlClosed = true → s.pending = []
  stopped_url : ∀ i, s.workers.get? i = some WStatus.stopped →
    s.urlClosed = true ∧ s.urlBuf = []
  resClosed_stopped : s.resClosed = true →
    ∀ i w, s.workers.get? i = some w → w = WStatus.stopped
  collector_stopped : s.collector = CStatus.stopped →
    s.resClosed = true ∧ s.resBuf = []

/-- Terminal state of the cancelled counterexample run: one target, one
worker, cancellation before anything was fed. -/
def finalCancelled : PState :=
  { pending := []
    urlClosed := true
    urlBuf := []
    resClosed := true
    resBuf := []
    workers := [WStatus.stopped]
    collector := CStatus.stopped
    collected := []
    dropped := 0
    cancelled := true }

/-- Terminal state of the uncancelled one-target one-worker run. -/
def finalGood : PState :=
  { pending := []
    urlClosed := true
    urlBuf := []
    resClosed := true
    resBuf := []
    workers := [WStatus.stopped]
    collector := CStatus.stopped
    collected := ["http://t.example"]
    dropped := 0
    cancelled := false }

-- Basic lookup lemmas for the association-list map model.

theorem lookupJob_eraseJob (m : Manager) (id id' : String) :
    lookupJob (eraseJob m id) id' =
      if id = id' then none else lookupJob m id' := by
  induction m with
  | nil => simp [eraseJob, lookupJob]
  | cons p rest ih =>
    obtain ⟨k, j⟩ := p
    by_cases hk : k = id
    · subst hk
      by_cases h' : k = id'
      · subst h'
        simpa [eraseJob, lookupJob] using ih
      · simpa [eraseJob, lookupJob, h'] using ih
    · by_cases h' : k = id'
      · subst h'
        have hne : ¬ id = k := fun e => hk e.symm
        simp [eraseJob, lookupJob, hk, hne]
      · simp [eraseJob, lookupJob, hk, h', ih]

theorem lookupJob_insertJob (m : Manager) (id : String) (j : JobStatus) (id' : String) :
    lookupJob (insertJob m id j) id' =
      if id = id' then some j else lookupJob m id' := by
  by_cases h : id = id'
  · simp [insertJob, lookupJob, h]
  · simp [insertJob, lookupJob, h, lookupJob_eraseJob m id id']

-- Characterization of UpdateJobStatus on an existing job (shared helper).

theorem UpdateJobStatus_lookup (m : Manager) (jobID : String) (job : JobStatus)
    (hlook : lookupJob m jobID = some job) (status : String) (err : Option String)
    (now : Nat) :
    lookupJob (UpdateJobStatus m jobID status err now).1 jobID = some
      { job with
        Status := status
        Error := match err with | some e => e | none => job.Error
        EndTime :=
          if status = "Completed" ∨ status = "Error" then some now else job.EndTime } := by
  unfold UpdateJobStatus
  rw [hlook]
  simp only
  rw [lookupJob_insertJob, if_pos rfl]
  congr 1
  cases err <;> by_cases hterm : status = "Completed" ∨ status = "Error" <;>
    simp [hterm]

theorem countersOK_applyOp (m : Manager) (op : RegOp) (hM : CountersOK m) :
    CountersOK (applyOp m op) := by
  cases op with
  | create id t now =>
    intro id' j' hl
    rw [applyOp, CreateJob, lookupJob_insertJob] at hl
    split at hl
    · cases hl
      exact ⟨le_refl 0, le_refl 0⟩
    · exact hM id' j' hl
  | update id st err now =>
    intro id' j' hl
    rw [applyOp] at hl
    rcases hj : lookupJob m id with _ | job
    · rw [UpdateJobStatus, hj] at hl
      exact hM id' j' hl
    · have hch := UpdateJobStatus_lookup m id job hj st err now
      by_cases hid : id = id'
      · subst hid
        rw [hch] at hl
        cases hl
        exact hM id job hj
      · rw [UpdateJobStatus, hj] at hl
        simp only [lookupJob_insertJob, if_neg hid] at hl
        exact hM id' j' hl
  | add id r =>
    intro id' j' hl
    rw [applyOp] at hl
    rcases hj : lookupJob m id with _ | job
    · simp only [AddResult, hj] at hl
      exact hM id' j' hl
    · simp only [AddResult, hj] at hl
      by_cases hact : job.Status = "Running" ∨ job.Status = "Pending"
      · rw [if_pos hact] at hl
        simp only [lookupJob_insertJob] at hl
        by_cases hid : id = id'
        · rw [if_pos hid] at hl
          obtain ⟨h0, hle⟩ := hM id job hj
          injection hl with hl
          subst hl
          cases hr : r.IsVulnerable <;>
            refine ⟨?_, ?_⟩ <;> split <;> simp [hr] <;> omega
        · rw [if_neg hid] at hl
          exact hM id' j' hl
      · rw [if_neg hact] at hl
        exact hM id' j' hl
  | queryStatus id => exact hM
  | queryResults id => exact hM
  | del id =>
    intro id' j' hl
    rw [applyOp, DeleteJob, lookupJob_eraseJob] at hl
    split at hl
    · cases hl
    · exact hM id' j' hl

theorem countersOK_applyOps (m : Manager) (ops : List RegOp) (hM : CountersOK m) :
    CountersOK (applyOps m ops) := by
  induction ops generalizing m with
  | nil => exact hM
  | cons op rest ih => exact ih (applyOp m op) (countersOK_applyOp m op hM)

/-- C2 counterexample: `UpdateJobStatus` on the terminal (`"Completed"`) job of
mgrDone with status argument `"Running"` is not a no-op: the stored status
reverts to `"Running"`.  This refutes the claim that terminal states are
sticky under updateStatus. -/
theorem updateStatus_not_sticky_cex :
    (lookupJob mgrDone "job1").map JobStatus.Status = some "Completed" ∧
    (lookupJob (UpdateJobStatus mgrDone "job1" "Running" none 2).1 "job1").map
      JobStatus.Status = some "Running" := by
  constructor <;> rfl

/-- C2 (amended): updateStatus is not guarded by terminal state.  On an
existing job whose status is terminal (`"Completed"` or `"Error"`), the call
overwrites the status with the given argument, stores the error text when the
error argument is non-nil, and stamps a fresh end time exactly when the given
status argument is terminal (so the end time is re-stamped rather than set
once); counters, start time and the result list are unchanged. -/
theorem updateStatus_terminal_overwrites (m : Manager) (jobID : String)
    (job : JobStatus) (hlook : lookupJob m jobID = some job)
    (hterm : job.Status = "Completed" ∨ job.Status = "Error")
    (status : String) (err : Option String) (now : Nat) :
    ∃ job', lookupJob (UpdateJobStatus m jobID status err now).1 jobID = some job' ∧
      job'.Status = status ∧
      job'.Error = (match err with | some e => e | none => job.Error) ∧
      job'.EndTime =
        (if status = "Completed" ∨ status = "Error" then some now else job.EndTime) ∧
      job'.TotalURLs = job.TotalURLs ∧ job'.ProcessedURLs = job.ProcessedURLs ∧
      job'.VulnerableURLs = job.VulnerableURLs ∧ job'.StartTime = job.StartTime ∧
      job'.Results = job.Results :=
  ⟨_, UpdateJobStatus_lookup m jobID job hlook status err now,
    rfl, rfl, rfl, rfl, rfl, rfl, rfl, rfl⟩

/-- Witness for updateStatus_terminal_overwrites at the concrete terminal job
of mgrDone, status argument `"Running"`, nil error, time 2. -/
theorem updateStatus_terminal_overwrites_witness :
    ∃ job', lookupJob (UpdateJobStatus mgrDone "job1" "Running" none 2).1 "job1" =
        some job' ∧
      job'.Status = "Running" ∧
      job'.Error = (match (none : Option String) with | some e => e | none => jobDone.Error) ∧
      job'.EndTime =
        (if ("Running" : String) = "Completed" ∨ ("Running" : String) = "Error" then
          some 2 else jobDone.EndTime) ∧
      job'.TotalURLs = jobDone.TotalURLs ∧ job'.ProcessedURLs = jobDone.ProcessedURLs ∧
      job'.VulnerableURLs = jobDone.VulnerableURLs ∧ job'.StartTime = jobDone.StartTime ∧
      job'.Results = jobDone.Results :=
  updateStatus_terminal_overwrites mgrDone "job1" jobDone rfl (Or.inl rfl)
    "Running" none 2

/-- C3 counterexample: on the non-terminal (`"Pending"`) job of mgr0, a call
with status argument `"Running"` and a non-nil error leaves the status at
`"Running"`, not `"Error"`; the error text is stored. -/
theorem updateStatus_error_no_override_cex :
    (lookupJob mgr0 "job1").map JobStatus.Status = some "Pending" ∧
    (lookupJob (UpdateJobStatus mgr0 "job1" "Running" (some "boom") 2).1 "job1").map
      JobStatus.Status = some "Running" ∧
    (lookupJob (UpdateJobStatus mgr0 "job1" "Running" (some "boom") 2).1 "job1").map
      JobStatus.Error = some "boom" := by
  refine ⟨rfl, rfl, rfl⟩

/-- C3 (amended): on an existing non-terminal job, updateStatus with a non-nil
error records the error text, but the resulting status is the status argument
as passed — a non-nil error does not force the status to `"Error"`. -/
theorem updateStatus_error_recorded (m : Manager) (jobID : String)
    (job : JobStatus) (hlook : lookupJob m jobID = some job)
    (hnt : job.Status = "Pending" ∨ job.Status = "Running")
    (status e : String) (now : Nat) :
    ∃ job', lookupJob (UpdateJobStatus m jobID status (some e) now).1 jobID =
        some job' ∧
      job'.Error = e ∧ job'.Status = status :=
  ⟨_, UpdateJobStatus_lookup m jobID job hlook status (some e) now, rfl, rfl⟩

/-- Witness for updateStatus_error_recorded at mgr0's pending job with status
argument `"Running"` and error text `"boom"`. -/
theorem updateStatus_error_recorded_witness :
    ∃ job', lookupJob (UpdateJobStatus mgr0 "job1" "Running" (some "boom") 2).1
        "job1" = some job' ∧
      job'.Error = "boom" ∧ job'.Status = "Running" :=
  updateStatus_error_recorded mgr0 "job1"
    { JobID := "job1", Status := "Pending", TotalURLs := 3, ProcessedURLs := 0,
      VulnerableURLs := 0, StartTime := 0, EndTime := none, Error := "",
      Results := [] }
    rfl (Or.inl rfl) "Running" "boom" 2

/-- C4 counterexample: on the terminal job of mgrDone, AddResult leaves the map
unchanged but returns `none` — exactly the value returned on a successful
append (second conjunct), so the rejected outcome is not distinguishable by
the caller from success. -/
theorem addResult_terminal_silent_cex :
    AddResult mgrDone "job1" sampleRes = (mgrDone, none) ∧
    (AddResult mgr0 "job1" sampleRes).2 = none := by
  constructor <;> rfl

/-- C4 (amended): AddResult appends the result and increments the processed
(and, when the result is vulnerable, the vulnerable) counter only while the
job's status is `"Pending"` or `"Running"`, and the first accepted result on a
`"Pending"` job transitions it to `"Running"`; on a job in terminal state the
call leaves the map unmutated but returns `nil` (`none`), the same value as on
success, so the rejection is not distinguishable by the caller. -/
theorem addResult_only_active (m : Manager) (jobID : String) (job : JobStatus)
    (r : ScanResult) (hlook : lookupJob m jobID = some job) :
    ((job.Status = "Pending" ∨ job.Status = "Running") →
      (AddResult m jobID r).2 = none ∧
      lookupJob (AddResult m jobID r).1 jobID = some
        { job with
          Status := "Running"
          Results := job.Results ++ [r]
          ProcessedURLs := job.ProcessedURLs + 1
          VulnerableURLs :=
            if r.IsVulnerable then job.VulnerableURLs + 1 else job.VulnerableURLs }) ∧
    (¬(job.Status = "Pending" ∨ job.Status = "Running") →
      AddResult m jobID r = (m, none)) := by
  constructor
  · intro hact
    have hcond : job.Status = "Running" ∨ job.Status = "Pending" := hact.symm
    refine ⟨?_, ?_⟩
    · simp only [AddResult, hlook]
      rw [if_pos hcond]
    · simp only [AddResult, hlook]
      rw [if_pos hcond]
      simp only [lookupJob_insertJob, if_pos rfl]
      rcases hact with hp | hr
      · simp [hp]
      · have : job.Status ≠ "Pending" := by
          rw [hr]
          decide
        simp [this, hr]
  · intro hinact
    have hcond : ¬(job.Status = "Running" ∨ job.Status = "Pending") :=
      fun hc => hinact hc.symm
    simp only [AddResult, hlook]
    rw [if_neg hcond]

/-- Witness for addResult_only_active: a vulnerable result accepted on mgr0's
pending job (first branch), and the same call rejected on mgrDone's completed
job (second branch, obtained from a second application). -/
theorem addResult_only_active_witness :
    (((jobDone.Status = "Pending" ∨ jobDone.Status = "Running") →
      (AddResult mgrDone "job1" sampleRes).2 = none ∧
      lookupJob (AddResult mgrDone "job1" sampleRes).1 "job1" = some
        { jobDone with
          Status := "Running"
          Results := jobDone.Results ++ [sampleRes]
          ProcessedURLs := jobDone.ProcessedURLs + 1
          VulnerableURLs :=
            if sampleRes.IsVulnerable then jobDone.VulnerableURLs + 1
            else jobDone.VulnerableURLs }) ∧
    (¬(jobDone.Status = "Pending" ∨ jobDone.Status = "Running") →
      AddResult mgrDone "job1" sampleRes = (mgrDone, none))) := by
  exact addResult_only_active mgrDone "job1" jobDone sampleRes rfl

/-- C5 counterexample: the registry does not enforce `processedURLs ≤
totalURLs`.  Creating a job with totalURLs = 0 and then delivering one result
through AddResult yields processedURLs = 1 > 0 = totalURLs, refuting the full
chain `0 ≤ vulnerableURLs ≤ processedURLs ≤ totalURLs` as an invariant of
arbitrary registry operation sequences. -/
theorem counters_total_violated_cex :
    ¬ (∀ id j,
        lookupJob (applyOps [] [RegOp.create "j" 0 0, RegOp.add "j" sampleRes]) id =
          some j →
        j.ProcessedURLs ≤ j.TotalURLs) := by
  intro h
  have h2 := h "j"
    { JobID := "j", Status := "Running", TotalURLs := 0, ProcessedURLs := 1,
      VulnerableURLs := 1, StartTime := 0, EndTime := none, Error := "",
      Results := [sampleRes] } rfl
  exact absurd h2 (by decide)

/-- C5 (amended): after every sequence of registry operations starting from the
empty registry, every stored job satisfies `0 ≤ vulnerableURLs ≤
processedURLs`.  The further bound `processedURLs ≤ totalURLs` is not enforced
by the registry itself: it holds only under the pipeline's guarantee that at
most totalURLs results are delivered to AddResult. -/
theorem counters_nonneg_le_processed (ops : List RegOp) (id : String)
    (j : JobStatus) (h : lookupJob (applyOps [] ops) id = some j) :
    0 ≤ j.VulnerableURLs ∧ j.VulnerableURLs ≤ j.ProcessedURLs :=
  countersOK_applyOps [] ops (fun _ _ hl => by cases hl) id j h

/-- Witness for counters_nonneg_le_processed on the concrete sequence create
then add of a vulnerable result. -/
theorem counters_nonneg_le_processed_witness :
    0 ≤ (1 : Int) ∧ (1 : Int) ≤ (1 : Int) ∧
    lookupJob (applyOps [] [RegOp.create "j" 2 0, RegOp.add "j" sampleRes]) "j" =
      some { JobID := "j", Status := "Running", TotalURLs := 2, ProcessedURLs := 1,
             VulnerableURLs := 1, StartTime := 0, EndTime := none, Error := "",
             Results := [sampleRes] } := by
  have h := counters_nonneg_le_processed [RegOp.create "j" 2 0, RegOp.add "j" sampleRes]
    "j"
    { JobID := "j", Status := "Running", TotalURLs := 2, ProcessedURLs := 1,
      VulnerableURLs := 1, StartTime := 0, EndTime := none, Error := "",
      Results := [sampleRes] } rfl
  exact ⟨h.1, h.2, rfl⟩

/-- C9: frame property of UpdateJobStatus — for every existing job and any
status/error/time arguments, the call leaves JobID, TotalURLs, ProcessedURLs,
VulnerableURLs, StartTime and the result list unchanged; only Status, Error
and EndTime can differ. -/
theorem updateStatus_frame (m : Manager) (jobID : String) (job : JobStatus)
    (hlook : lookupJob m jobID = some job) (status : String) (err : Option String)
    (now : Nat) :
    ∃ job', lookupJob (UpdateJobStatus m jobID status err now).1 jobID = some job' ∧
      job'.JobID = job.JobID ∧ job'.TotalURLs = job.TotalURLs ∧
      job'.ProcessedURLs = job.ProcessedURLs ∧
      job'.VulnerableURLs = job.VulnerableURLs ∧
      job'.StartTime = job.StartTime ∧ job'.Results = job.Results :=
  ⟨_, UpdateJobStatus_lookup m jobID job hlook status err now,
    rfl, rfl, rfl, rfl, rfl, rfl⟩

/-- Witness for updateStatus_frame at mgr0's pending job. -/
theorem updateStatus_frame_witness :
    ∃ job', lookupJob (UpdateJobStatus mgr0 "job1" "Completed" (some "x") 7).1
        "job1" = some job' ∧
      job'.JobID = "job1" ∧ job'.TotalURLs = 3 ∧ job'.ProcessedURLs = 0 ∧
      job'.VulnerableURLs = 0 ∧ job'.StartTime = 0 ∧ job'.Results = [] :=
  updateStatus_frame mgr0 "job1"
    { JobID := "job1", Status := "Pending", TotalURLs := 3, ProcessedURLs := 0,
      VulnerableURLs := 0, StartTime := 0, EndTime := none, Error := "",
      Results := [] }
    rfl "Completed" (some "x") 7

theorem matchLoop_mem (body : String) (ks : List String) :
    ∀ (acc : List String) (v : Bool) (k : String),
      k ∈ (matchLoop body ks acc v).2 ↔
        k ∈ acc ∨ (k ∈ ks ∧ strContains body k = true) := by
  induction ks with
  | nil => intro acc v k; simp [matchLoop]
  | cons k' ks ih =>
    intro acc v k
    by_cases hc : strContains body k' = true
    · rw [matchLoop, if_pos hc, ih]
      by_cases hk : k' ∈ acc
      · rw [if_pos hk]
        constructor
        · rintro (h | ⟨h1, h2⟩)
          · exact Or.inl h
          · exact Or.inr ⟨List.mem_cons_of_mem _ h1, h2⟩
        · rintro (h | ⟨h1, h2⟩)
          · exact Or.inl h
          · rcases List.mem_cons.mp h1 with rfl | h1
            · exact Or.inl hk
            · exact Or.inr ⟨h1, h2⟩
      · rw [if_neg hk]
        simp only [List.mem_append, List.mem_cons, List.not_mem_nil, or_false]
        constructor
        · rintro ((h | rfl) | ⟨h1, h2⟩)
          · exact Or.inl h
          · exact Or.inr ⟨Or.inl rfl, hc⟩
          · exact Or.inr ⟨Or.inr h1, h2⟩
        · rintro (h | ⟨rfl | h1, h2⟩)
          · exact Or.inl (Or.inl h)
          · exact Or.inl (Or.inr rfl)
          · exact Or.inr ⟨h1, h2⟩
    · rw [matchLoop, if_neg hc, ih]
      constructor
      · rintro (h | ⟨h1, h2⟩)
        · exact Or.inl h
        · exact Or.inr ⟨List.mem_cons_of_mem _ h1, h2⟩
      · rintro (h | ⟨h1, h2⟩)
        · exact Or.inl h
        · rcases List.mem_cons.mp h1 with rfl | h1
          · exact absurd h2 hc
          · exact Or.inr ⟨h1, h2⟩

theorem matchLoop_nodup (body : String) (ks : List String) :
    ∀ (acc : List String) (v : Bool), acc.Nodup → (matchLoop body ks acc v).2.Nodup := by
  induction ks with
  | nil => intro acc v h; simpa [matchLoop] using h
  | cons k' ks ih =>
    intro acc v h
    by_cases hc : strContains body k' = true
    · rw [matchLoop, if_pos hc]
      by_cases hk : k' ∈ acc
      · rw [if_pos hk]; exact ih _ _ h
      · rw [if_neg hk]
        refine ih _ _ ?_
        simp [List.nodup_append, h, hk]
    · rw [matchLoop, if_neg hc]; exact ih _ _ h

theorem matchLoop_order (body : String) (ks : List String) :
    ∀ (acc : List String) (v : Bool),
      ∃ t, (matchLoop body ks acc v).2 = acc ++ t ∧ t.Sublist ks := by
  induction ks with
  | nil => intro acc v; exact ⟨[], by simp [matchLoop]⟩
  | cons k' ks ih =>
    intro acc v
    by_cases hc : strContains body k' = true
    · rw [matchLoop, if_pos hc]
      by_cases hk : k' ∈ acc
      · rw [if_pos hk]
        obtain ⟨t, ht, hs⟩ := ih acc true
        exact ⟨t, ht, hs.trans (List.sublist_cons_self k' ks)⟩
      · rw [if_neg hk]
        obtain ⟨t, ht, hs⟩ := ih (acc ++ [k']) true
        refine ⟨k' :: t, ?_, List.Sublist.cons₂ k' hs⟩
        rw [ht, List.append_assoc, List.singleton_append]
    · rw [matchLoop, if_neg hc]
      obtain ⟨t, ht, hs⟩ := ih acc v
      exact ⟨t, ht, hs.trans (List.sublist_cons_self k' ks)⟩

theorem matchLoop_vuln (body : String) (ks : List String) :
    ∀ (acc : List String) (v : Bool),
      (matchLoop body ks acc v).1 = (v || ks.any (fun k => strContains body k)) := by
  induction ks with
  | nil => intro acc v; simp [matchLoop]
  | cons k' ks ih =>
    intro acc v
    by_cases hc : strContains body k' = true
    · rw [matchLoop, if_pos hc, ih]
      simp [hc]
    · rw [matchLoop, if_neg hc, ih]
      rw [Bool.not_eq_true] at hc
      simp [hc]

/-- C7: the worker's keyword match records exactly the keywords whose
case-sensitive substring occurs in the body, each exactly once (no duplicates,
even for repeated keywords or repeated occurrences), in keyword-list order
(the matched list is a sublist of the keyword list), with the vulnerable flag
true exactly when the matched list is non-empty.  Determinism is immediate:
the embedding is a pure function of (body, keywords). -/
theorem matchKeywords_spec (body : String) (keywords : List String) :
    (matchKeywords body keywords).2.Nodup ∧
    (∀ k, k ∈ (matchKeywords body keywords).2 ↔
        k ∈ keywords ∧ strContains body k = true) ∧
    (matchKeywords body keywords).2.Sublist keywords ∧
    ((matchKeywords body keywords).1 = true ↔ (matchKeywords body keywords).2 ≠ []) := by
  refine ⟨matchLoop_nodup body keywords [] false List.nodup_nil, ?_, ?_, ?_⟩
  · intro k
    rw [matchKeywords, matchLoop_mem]
    simp
  · obtain ⟨t, ht, hs⟩ := matchLoop_order body keywords [] false
    rw [matchKeywords, ht, List.nil_append]
    exact hs
  · rw [matchKeywords, matchLoop_vuln]
    simp only [Bool.false_or, List.any_eq_true]
    constructor
    · rintro ⟨k, hk, hc⟩ hnil
      have : k ∈ (matchLoop body keywords [] false).2 := by
        rw [matchLoop_mem]
        exact Or.inr ⟨hk, hc⟩
      rw [hnil] at this
      cases this
    · intro hne
      rcases hm : (matchLoop body keywords [] false).2 with _ | ⟨k, rest⟩
      · exact absurd hm hne
      · have : k ∈ (matchLoop body keywords [] false).2 := by
          rw [hm]; exact List.mem_cons_self k rest
        rw [matchLoop_mem] at this
        rcases this with h | ⟨h1, h2⟩
        · cases h
        · exact ⟨k, h1, h2⟩

/-- Witness for matchKeywords_spec: concrete body and keyword list with a hit,
a miss, and a duplicate keyword; the matched list is the deduplicated hit. -/
theorem matchKeywords_spec_witness :
    matchKeywords "Welcome admin please login" ["admin", "root", "admin"] =
      (true, ["admin"]) ∧
    (matchKeywords "Welcome admin please login" ["admin", "root", "admin"]).2.Nodup :=
  ⟨by decide,
    (matchKeywords_spec "Welcome admin please login" ["admin", "root", "admin"]).1⟩

-- Redirect-loop lemmas for Fetch.

theorem clientDo_redirect_chain (web : String → WebResponse) (u : Nat → String)
    (st : Nat → Nat) (b : Nat → String)
    (hred : ∀ i, i < 10 → web (u i) = .resp (st i) (some (u (i + 1))) (b i) none) :
    ∀ fuel j, j ≤ 9 → 10 - j ≤ fuel →
      clientDo web fuel j (u j) = .ok (u 9, st 9, b 9, none) := by
  intro fuel
  induction fuel with
  | zero => intro j hj hf; omega
  | succ fuel ih =>
    intro j hj hf
    have hw := hred j (by omega)
    simp only [clientDo]
    rw [hw]
    by_cases hj9 : j = 9
    · subst hj9
      simp [checkRedirect]
    · have hcr : checkRedirect (j + 1) = false := by
        unfold checkRedirect
        simp only [decide_eq_false_iff_not]
        omega
      simp only [hcr, Bool.false_eq_true, if_false]
      exact ih (j + 1) (by omega) (by omega)

theorem clientDo_final (web : String → WebResponse) (u : Nat → String)
    (st : Nat → Nat) (b : Nat → String) (k : Nat) (hk : k < 10)
    (hred : ∀ i, i < k → web (u i) = .resp (st i) (some (u (i + 1))) (b i) none)
    (hfin : web (u k) = .resp (st k) none (b k) none) :
    ∀ fuel j, j ≤ k → k + 1 - j ≤ fuel →
      clientDo web fuel j (u j) = .ok (u k, st k, b k, none) := by
  intro fuel
  induction fuel with
  | zero => intro j hj hf; omega
  | succ fuel ih =>
    intro j hj hf
    by_cases hjk : j = k
    · subst hjk
      simp only [clientDo]
      rw [hfin]
    · have hw := hred j (by omega)
      simp only [clientDo]
      rw [hw]
      have hcr : checkRedirect (j + 1) = false := by
        unfold checkRedirect
        simp only [decide_eq_false_iff_not]
        omega
      simp only [hcr, Bool.false_eq_true, if_false]
      exact ih (j + 1) (by omega) (by omega)

/-- C8: along a response chain `u 0, u 1, ...`, Fetch follows redirects
automatically up to the bound of 10 requests.  First conjunct: when the first
ten responses are all redirects (the chain exceeds the bound), Fetch returns
the last response obtained before the bound — the one for `u 9` — as a normal
terminal result with its status and body and a nil error, not as an error.
Second conjunct: a chain that reaches a non-redirect response within the bound
is followed to that response. -/
theorem Fetch_follows_redirects (web : String → WebResponse) (u : Nat → String)
    (st : Nat → Nat) (b : Nat → String) :
    ((∀ i, i < 10 → web (u i) = .resp (st i) (some (u (i + 1))) (b i) none) →
      Fetch web (u 0) = (u 9, st 9, some (b 9), none)) ∧
    (∀ k, k < 10 →
      (∀ i, i < k → web (u i) = .resp (st i) (some (u (i + 1))) (b i) none) →
      web (u k) = .resp (st k) none (b k) none →
      Fetch web (u 0) = (u k, st k, some (b k), none)) := by
  constructor
  · intro hred
    have h := clientDo_redirect_chain web u st b hred 11 0 (by omega) (by omega)
    simp only [Fetch, h]
  · intro k hk hred hfin
    have h := clientDo_final web u st b k hk hred hfin 11 0 (by omega) (by omega)
    simp only [Fetch, h]

/-- Witness for Fetch_follows_redirects: a self-redirecting URL (an unbounded
chain); Fetch returns the redirect response itself with a nil error. -/
theorem Fetch_follows_redirects_witness :
    Fetch webLoop "http://loop.example" =
      ("http://loop.example", 301, some "moved", none) :=
  (Fetch_follows_redirects webLoop (fun _ => "http://loop.example")
    (fun _ => 301) (fun _ => "moved")).1 (fun _ _ => rfl)

/-- C6 counterexample: the partial-success case.  When the fetch obtains
status 200 but reading the body fails, the worker's result carries both a
non-empty error and the non-zero status code 200 — refuting the claimed
invariant that a non-empty error forces status code 0. -/
theorem result_error_statusCode_cex :
    (workerProcess webReadFail ["admin"] "http://u.example" 0 "").Error =
      "unexpected EOF" ∧
    (workerProcess webReadFail ["admin"] "http://u.example" 0 "").StatusCode = 200 :=
  ⟨rfl, rfl⟩

/-- C6 (amended): every worker result with a non-empty error has the
vulnerability flag false, no matched keywords and no stored body; the status
code, however, is 0 only for total transport failures and equals the obtained
status code in the partial-success case where the body read failed. -/
theorem workerResult_error_invariant (web : String → WebResponse)
    (keywords : List String) (urlStr : String) (now : Nat) (ip : String)
    (h : (workerProcess web keywords urlStr now ip).Error ≠ "") :
    (workerProcess web keywords urlStr now ip).IsVulnerable = false ∧
    (workerProcess web keywords urlStr now ip).MatchedKeywords = [] ∧
    (workerProcess web keywords urlStr now ip).ResponseBody = "" := by
  rcases he : (Fetch web urlStr).2.2.2 with _ | e
  · exfalso
    apply h
    simp only [workerProcess, he]
  · simp [workerProcess, he]

/-- Witness for workerResult_error_invariant at the body-read-failure
environment (whose error text is non-empty). -/
theorem workerResult_error_invariant_witness :
    (workerProcess webReadFail ["admin"] "http://u.example" 0 "").IsVulnerable =
      false ∧
    (workerProcess webReadFail ["admin"] "http://u.example" 0 "").MatchedKeywords =
      [] ∧
    (workerProcess webReadFail ["admin"] "http://u.example" 0 "").ResponseBody = "" :=
  workerResult_error_invariant webReadFail ["admin"] "http://u.example" 0 ""
    (by decide)

/-- C10: on a successful fetch, a worker given an empty keyword list still
produces a well-formed result — vulnerability flag false, empty matched
keyword list, empty error. -/
theorem worker_empty_keywords (web : String → WebResponse) (urlStr : String)
    (now : Nat) (ip : String) (h : (Fetch web urlStr).2.2.2 = none) :
    (workerProcess web [] urlStr now ip).IsVulnerable = false ∧
    (workerProcess web [] urlStr now ip).MatchedKeywords = [] ∧
    (workerProcess web [] urlStr now ip).Error = "" := by
  simp [workerProcess, h, matchKeywords, matchLoop]

/-- Witness for worker_empty_keywords at a plain successful page. -/
theorem worker_empty_keywords_witness :
    (workerProcess webOk [] "http://ok.example" 0 "").IsVulnerable = false ∧
    (workerProcess webOk [] "http://ok.example" 0 "").MatchedKeywords = [] ∧
    (workerProcess webOk [] "http://ok.example" 0 "").Error = "" :=
  worker_empty_keywords webOk "http://ok.example" 0 "" rfl

-- Pipeline bookkeeping lemmas.

theorem get?_lt_length {α : Type} {l : List α} {i : Nat} {a : α}
    (h : l.get? i = some a) : i < l.length := by
  by_contra hge
  rw [List.get?_eq_none.mpr (Nat.le_of_not_lt hge)] at h
  cases h

theorem inFlight_set (ws : List WStatus) (i : Nat) (w w' : WStatus)
    (h : ws.get? i = some w) :
    inFlight (ws.set i w') + carried w = inFlight ws + carried w' := by
  induction ws generalizing i with
  | nil => cases h
  | cons a tail ih =>
    cases i with
    | zero =>
      simp only [List.get?] at h
      cases h
      simp only [List.set, inFlight, List.map_cons, List.sum_cons]
      omega
    | succ i =>
      simp only [List.get?] at h
      have hih := ih i h
      simp only [List.set, inFlight, List.map_cons, List.sum_cons]
      simp only [inFlight] at hih
      omega

theorem inFlight_stopped (ws : List WStatus)
    (h : ∀ w ∈ ws, w = WStatus.stopped) : inFlight ws = 0 := by
  induction ws with
  | nil => rfl
  | cons a tail ih =>
    have ha := h a (List.mem_cons_self a tail)
    subst ha
    have ht := ih fun w hw => h w (List.mem_cons_of_mem _ hw)
    simp only [inFlight] at ht
    simp only [inFlight, List.map_cons, List.sum_cons, ht, carried]

theorem step_cancel_mono {n : Nat} {s t : PState} (h : Step n s t)
    (hc : s.cancelled = true) : t.cancelled = true := by
  cases h <;> simpa using hc

theorem step_workers_length {n : Nat} {s t : PState} (h : Step n s t) :
    t.workers.length = s.workers.length := by
  cases h <;> simp

theorem reach_workers_length {n : Nat} {s t : PState}
    (h : Relation.ReflTransGen (Step n) s t) :
    t.workers.length = s.workers.length := by
  induction h with
  | refl => rfl
  | tail _ hbc ih => rw [step_workers_length hbc, ih]

theorem step_tally_mono {n : Nat} {s t : PState} (h : Step n s t) :
    tally t ≤ tally s := by
  cases h with
  | feed u rest h1 h2 h3 =>
    have hp : s.pending.length = rest.length + 1 := by rw [h1]; rfl
    simp only [tally, List.length_append, List.length_singleton]
    omega
  | feedClose h1 h2 => exact le_refl _
  | feedAbort h1 h2 =>
    simp only [tally, List.length_nil]
    omega
  | wRecv i u rest h1 h2 =>
    have hset := inFlight_set s.workers i _ (WStatus.sending u) h1
    have hb : s.urlBuf.length = rest.length + 1 := by rw [h2]; rfl
    simp only [carried] at hset
    simp only [tally]
    omega
  | wStopClosed i h1 h2 h3 =>
    have hset := inFlight_set s.workers i _ WStatus.stopped h1
    simp only [carried] at hset
    simp only [tally]
    omega
  | wStopCtx i h1 h2 =>
    have hset := inFlight_set s.workers i _ WStatus.stopped h1
    simp only [carried] at hset
    simp only [tally]
    omega
  | wSend i r h1 h2 h3 =>
    have hset := inFlight_set s.workers i _ WStatus.delaying h1
    simp only [carried] at hset
    simp only [tally, List.length_append, List.length_singleton]
    omega
  | wDrop i r h1 h2 =>
    have hset := inFlight_set s.workers i _ WStatus.stopped h1
    simp only [carried] at hset
    simp only [tally]
    omega
  | wDelayDone i h1 =>
    have hset := inFlight_set s.workers i _ WStatus.idle h1
    simp only [carried] at hset
    simp only [tally]
    omega
  | wDelayCancel i h1 h2 =>
    have hset := inFlight_set s.workers i _ WStatus.stopped h1
    simp only [carried] at hset
    simp only [tally]
    omega
  | cRecv r rest h1 h2 =>
    have hb : s.resBuf.length = rest.length + 1 := by rw [h2]; rfl
    simp only [tally, List.length_append, List.length_singleton]
    omega
  | cStopClosed h1 h2 h3 => exact le_refl _
  | cStopCtx h1 h2 => exact le_refl _
  | mainClose h1 h2 => exact le_refl _
  | cancel => exact le_refl _

theorem tally_init (urls : List String) (n : Nat) :
    tally (initState urls n) = urls.length := by
  simp [tally, initState, inFlight, carried, List.map_replicate]

theorem reach_tally {n : Nat} {urls : List String} {s : PState}
    (h : Relation.ReflTransGen (Step n) (initState urls n) s) :
    tally s ≤ urls.length := by
  induction h with
  | refl => exact le_of_eq (tally_init urls n)
  | tail _ hbc ih => exact le_trans (step_tally_mono hbc) ih

theorem initState_clean (urls : List String) (n : Nat) :
    CleanInv urls.length (initState urls n) := by
  refine ⟨tally_init urls n, rfl, ?_, ?_, ?_, ?_⟩
  · intro h
    simp [initState] at h
  · intro i hi
    have hmem : WStatus.stopped ∈ List.replicate n WStatus.idle := List.get?_mem hi
    have := List.eq_of_mem_replicate hmem
    cases this
  · intro h
    simp [initState] at h
  · intro h
    simp [initState] at h

theorem step_clean {n M : Nat} {s t : PState} (h : Step n s t)
    (hc : s.cancelled = false) (inv : CleanInv M s) : CleanInv M t := by
  obtain ⟨ht, hd, hcp, hsu, hrs, hcs⟩ := inv
  cases h with
  | feed u rest h1 h2 h3 =>
    refine ⟨?_, hd, ?_, ?_, hrs, hcs⟩
    · have hp : s.pending.length = rest.length + 1 := by rw [h1]; rfl
      simp only [tally, List.length_append, List.length_singleton] at ht ⊢
      omega
    · intro hcl
      have hcl2 : s.urlClosed = true := hcl
      rw [h2] at hcl2
      cases hcl2
    · intro i hi
      have := (hsu i hi).1
      rw [h2] at this
      cases this
  | feedClose h1 h2 =>
    refine ⟨ht, hd, fun _ => h1, ?_, hrs, hcs⟩
    intro i hi
    have := (hsu i hi).1
    rw [h2] at this
    cases this
  | feedAbort h1 h2 =>
    rw [hc] at h1
    cases h1
  | wRecv i u rest h1 h2 =>
    refine ⟨?_, hd, hcp, ?_, ?_, hcs⟩
    · have hset := inFlight_set s.workers i _ (WStatus.sending u) h1
      simp only [carried] at hset
      have hb : s.urlBuf.length = rest.length + 1 := by rw [h2]; rfl
      simp only [tally] at ht ⊢
      omega
    · intro j hj
      by_cases hij : i = j
      · subst hij
        rw [List.get?_set_eq_of_lt _ (get?_lt_length h1)] at hj
        simp at hj
      · rw [List.get?_set_ne _ _ hij] at hj
        have := (hsu j hj).2
        rw [h2] at this
        cases this
    · intro hcl
      exact absurd (hrs hcl i _ h1) (by decide)
  | wStopClosed i h1 h2 h3 =>
    refine ⟨?_, hd, hcp, fun j hj => ⟨h2, h3⟩, ?_, hcs⟩
    · have hset := inFlight_set s.workers i _ WStatus.stopped h1
      simp only [carried] at hset
      simp only [tally] at ht ⊢
      omega
    · intro hcl j w hj
      by_cases hij : i = j
      · subst hij
        rw [List.get?_set_eq_of_lt _ (get?_lt_length h1)] at hj
        cases hj
        rfl
      · rw [List.get?_set_ne _ _ hij] at hj
        exact hrs hcl j w hj
  | wStopCtx i h1 h2 =>
    rw [hc] at h2
    cases h2
  | wSend i r h1 h2 h3 =>
    refine ⟨?_, hd, hcp, ?_, ?_, ?_⟩
    · have hset := inFlight_set s.workers i _ WStatus.delaying h1
      simp only [carried] at hset
      simp only [tally, List.length_append, List.length_singleton] at ht ⊢
      omega
    · intro j hj
      by_cases hij : i = j
      · subst hij
        rw [List.get?_set_eq_of_lt _ (get?_lt_length h1)] at hj
        simp at hj
      · rw [List.get?_set_ne _ _ hij] at hj
        exact hsu j hj
    · intro hcl
      have := hrs hcl i _ h1
      cases this
    · intro hcol
      have hcol2 : s.collector = CStatus.stopped := hcol
      have := (hcs hcol2).1
      rw [h3] at this
      cases this
  | wDrop i r h1 h2 =>
    rw [hc] at h2
    cases h2
  | wDelayDone i h1 =>
    refine ⟨?_, hd, hcp, ?_, ?_, hcs⟩
    · have hset := inFlight_set s.workers i _ WStatus.idle h1
      simp only [carried] at hset
      simp only [tally] at ht ⊢
      omega
    · intro j hj
      by_cases hij : i = j
      · subst hij
        rw [List.get?_set_eq_of_lt _ (get?_lt_length h1)] at hj
        simp at hj
      · rw [List.get?_set_ne _ _ hij] at hj
        exact hsu j hj
    · intro hcl
      exact absurd (hrs hcl i _ h1) (by decide)
  | wDelayCancel i h1 h2 =>
    rw [hc] at h2
    cases h2
  | cRecv r rest h1 h2 =>
    refine ⟨?_, hd, hcp, hsu, hrs, ?_⟩
    · have hb : s.resBuf.length = rest.length + 1 := by rw [h2]; rfl
      simp only [tally, List.length_append, List.length_singleton] at ht ⊢
      omega
    · intro hcol
      have hcol2 : s.collector = CStatus.stopped := hcol
      rw [h1] at hcol2
      cases hcol2
  | cStopClosed h1 h2 h3 =>
    exact ⟨ht, hd, hcp, hsu, hrs, fun _ => ⟨h2, h3⟩⟩
  | cStopCtx h1 h2 =>
    rw [hc] at h2
    cases h2
  | mainClose h1 h2 =>
    refine ⟨ht, hd, hcp, hsu, ?_, ?_⟩
    · intro _ j w hj
      exact h1 w (List.get?_mem hj)
    · intro hcol
      have hcol2 : s.collector = CStatus.stopped := hcol
      have := (hcs hcol2).1
      rw [h2] at this
      cases this
  | cancel =>
    exact ⟨ht, hd, hcp, hsu, hrs, hcs⟩

theorem reach_clean {n : Nat} {urls : List String} {s : PState}
    (h : Relation.ReflTransGen (Step n) (initState urls n) s) :
    s.cancelled = false → CleanInv urls.length s := by
  induction h with
  | refl => exact fun _ => initState_clean urls n
  | @tail b c hab hbc ih =>
    intro hcc
    cases hb : b.cancelled with
    | true =>
      have := step_cancel_mono hbc hb
      rw [hcc] at this
      cases this
    | false =>
      exact step_clean hbc hb (ih hb)

/-- C1 counterexample: a complete cancelled run of the pipeline (M = 1 target,
N = 1 worker; the context is cancelled before the target is fed) ends with
zero collected results and zero documented drops: the shortfall is 1 but the
drop count is 0, refuting the claim that under cancellation the shortfall
equals the number of results dropped during delivery. -/
theorem scanner_cancel_shortfall_cex :
    Relation.ReflTransGen (Step 1) (initState ["http://t.example"] 1)
      finalCancelled ∧
    FinalState finalCancelled ∧
    finalCancelled.cancelled = true ∧
    finalCancelled.dropped = 0 ∧
    finalCancelled.collected.length = 0 ∧
    (["http://t.example"] : List String).length - finalCancelled.collected.length ≠
      finalCancelled.dropped := by
  refine ⟨?_, ⟨rfl, rfl⟩, rfl, rfl, rfl, by decide⟩
  refine Relation.ReflTransGen.head (Step.cancel _) ?_
  refine Relation.ReflTransGen.head (Step.feedAbort _ rfl rfl) ?_
  refine Relation.ReflTransGen.head (Step.wStopCtx _ 0 rfl rfl) ?_
  refine Relation.ReflTransGen.head (Step.mainClose _ (by decide) rfl) ?_
  exact Relation.ReflTransGen.head (Step.cStopClosed _ rfl rfl rfl)
    Relation.ReflTransGen.refl

/-- C1 (amended): for every worker count N ≥ 1 and target list of length M,
any completed pipeline run (result channel closed after wg.Wait, collector
exited) satisfies: if no cancellation occurred, exactly M results were
collected and none dropped; in general collected + dropped ≤ M — the
documented delivery-drop count accounts for only part of a cancellation
shortfall, which can also include targets never fed, never fetched, or left
undrained in the result channel when the collector exits on ctx.Done. -/
theorem scanner_run_accounting (n : Nat) (urls : List String) (s : PState)
    (hn : 1 ≤ n)
    (hreach : Relation.ReflTransGen (Step n) (initState urls n) s)
    (hfin : FinalState s) :
    (s.cancelled = false → s.collected.length = urls.length ∧ s.dropped = 0) ∧
    s.collected.length + s.dropped ≤ urls.length := by
  constructor
  · intro hc
    obtain ⟨ht, hd, hcp, hsu, hrs, hcs⟩ := reach_clean hreach hc
    obtain ⟨hcol, hrcl⟩ := hfin
    obtain ⟨_, hrb⟩ := hcs hcol
    have hall := hrs hrcl
    have hlen : s.workers.length = n := by
      have := reach_workers_length hreach
      simpa [initState] using this
    have h0 : s.workers.get? 0 = some WStatus.stopped := by
      cases hg : s.workers.get? 0 with
      | none =>
        have := List.get?_eq_none.mp hg
        omega
      | some w =>
        rw [hall 0 w hg]
    obtain ⟨hurlc, hurlb⟩ := hsu 0 h0
    have hpend := hcp hurlc
    have hifz : inFlight s.workers = 0 := by
      apply inFlight_stopped
      intro w hw
      obtain ⟨j, hj⟩ := List.mem_iff_get?.mp hw
      exact hall j w hj
    refine ⟨?_, hd⟩
    simp only [tally, hpend, hurlb, hrb, hifz, hd, List.length_nil] at ht
    omega
  · have htl := reach_tally hreach
    simp only [tally] at htl
    omega

/-- Witness for scanner_run_accounting: a complete uncancelled run with one
target and one worker, collecting exactly one result. -/
theorem scanner_run_accounting_witness :
    ((finalGood.cancelled = false →
      finalGood.collected.length = (["http://t.example"] : List String).length ∧
      finalGood.dropped = 0) ∧
    finalGood.collected.length + finalGood.dropped ≤
      (["http://t.example"] : List String).length) := by
  refine scanner_run_accounting 1 ["http://t.example"] finalGood (by decide) ?_
    ⟨rfl, rfl⟩
  refine Relation.ReflTransGen.head
    (Step.feed _ "http://t.example" [] rfl rfl (by decide)) ?_
  refine Relation.ReflTransGen.head (Step.feedClose _ rfl rfl) ?_
  refine Relation.ReflTransGen.head
    (Step.wRecv _ 0 "http://t.example" [] rfl rfl) ?_
  refine Relation.ReflTransGen.head
    (Step.wSend _ 0 "http://t.example" rfl (by decide) rfl) ?_
  refine Relation.ReflTransGen.head (Step.wDelayDone _ 0 rfl) ?_
  refine Relation.ReflTransGen.head (Step.wStopClosed _ 0 rfl rfl rfl) ?_
  refine Relation.ReflTransGen.head (Step.mainClose _ (by decide) rfl) ?_
  refine Relation.ReflTransGen.head
    (Step.cRecv _ "http://t.example" [] rfl rfl) ?_
  exact Relation.ReflTransGen.head (Step.cStopClosed _ rfl rfl rfl)
    Relation.ReflTransGen.refl
